import Mathlib

/-!
# Constellation composite token — verification development

Shallow embedding of the `constellation-pseudocode` repository:

* `src/constellation-token/src/contract.rs` — the composite ("basket")
  token: a Soroban-style fungible token whose privileged `mint`/`burn`
  entry points are intended for the minter-burner controller, plus the
  standard fungible surface (`transfer`, `transfer_from`, `burn_from`,
  `approve`, `balance`, `spendable_balance`).
* `src/constellation-minter-burner/src/lib.rs` — the orchestrator that
  issues (mint) and redeems (burn) composite units against component
  tokens.

Modelling conventions:

* Addresses, component-token identities and ledger sequence numbers are
  modelled as `Nat`; token amounts are `Int` (the source uses `i128`;
  the reachable-state invariants proved below keep every quantity far
  from the 128-bit range, so plain integers are the faithful model of
  the arithmetic actually exercised).
* Soroban `require_auth` is modelled by an ambient authorization
  predicate `auth : Nat → Bool` describing which identities have
  authorized the current call.
* Persistent contract storage is modelled as explicit state records;
  maps are association lists with a last-write-wins setter that keeps
  keys unique.
* A Rust `panic!` aborts the whole call with no state persisted; calls
  are therefore `Except Err State`, and each panic site is mapped to
  the error kind named by the specification's taxonomy.
* Helper modules that the contract imports but that are not part of the
  repository's sources (`balance.rs`, `allowance.rs`, `admin.rs`, the
  auction engine, the orchestrator's component pulls) are modelled from
  the specification; each such definition carries a doc comment saying
  so.
* Storage-lifetime bumps (`bump(INSTANCE_LIFETIME_THRESHOLD, ...)`) and
  event emission are external collaborators with no ledger effect; they
  are not part of the state.
-/

/-! ## Keyed association-list store -/

/-- Lookup in an association list (first match wins). -/
def lookupKey {κ β : Type} [DecidableEq κ] : List (κ × β) → κ → Option β
  | [], _ => none
  | p :: t, k => if p.1 = k then some p.2 else lookupKey t k

/-- Last-write-wins setter: removes every entry with key `k` and conses
the new binding, so keys stay unique. -/
def setKey {κ β : Type} [DecidableEq κ] (l : List (κ × β)) (k : κ) (v : β) :
    List (κ × β) :=
  (k, v) :: l.filter (fun p => decide (p.1 ≠ k))

/-- A store is well formed when its keys are pairwise distinct. -/
def WFKeys {κ β : Type} (l : List (κ × β)) : Prop :=
  (l.map Prod.fst).Nodup

theorem lookupKey_setKey_same {κ β : Type} [DecidableEq κ]
    (l : List (κ × β)) (k : κ) (v : β) :
    lookupKey (setKey l k v) k = some v := by
  simp [setKey, lookupKey]

theorem filter_ne_key_of_not_mem {κ β : Type} [DecidableEq κ]
    (l : List (κ × β)) (k : κ) (h : k ∉ l.map Prod.fst) :
    l.filter (fun p => decide (p.1 ≠ k)) = l := by
  induction l with
  | nil => rfl
  | cons p t ih =>
    simp only [List.map_cons, List.mem_cons, not_or] at h
    rw [List.filter_cons,
      if_pos (by simp only [decide_eq_true_eq]; exact fun he => h.1 he.symm),
      ih h.2]

theorem lookupKey_filter_ne {κ β : Type} [DecidableEq κ]
    (l : List (κ × β)) (k k' : κ) (h : k' ≠ k) :
    lookupKey (l.filter (fun p => decide (p.1 ≠ k))) k' = lookupKey l k' := by
  induction l with
  | nil => rfl
  | cons p t ih =>
    rw [List.filter_cons]
    by_cases hp : p.1 = k
    · rw [if_neg (by simp [hp])]
      have hq : p.1 ≠ k' := fun he => h (he ▸ hp)
      rw [ih]
      simp [lookupKey, hq]
    · rw [if_pos (by simpa using hp)]
      simp only [lookupKey]
      by_cases hq : p.1 = k'
      · simp [hq]
      · rw [if_neg hq, if_neg hq]
        exact ih

theorem lookupKey_setKey_ne {κ β : Type} [DecidableEq κ]
    (l : List (κ × β)) (k k' : κ) (v : β) (h : k' ≠ k) :
    lookupKey (setKey l k v) k' = lookupKey l k' := by
  unfold setKey
  simp only [lookupKey]
  rw [if_neg (fun he : k = k' => h he.symm)]
  exact lookupKey_filter_ne l k k' h

theorem wfKeys_setKey {κ β : Type} [DecidableEq κ]
    (l : List (κ × β)) (k : κ) (v : β) (h : WFKeys l) :
    WFKeys (setKey l k v) := by
  unfold WFKeys setKey
  simp only [List.map_cons, List.nodup_cons]
  constructor
  · intro hk
    rcases List.mem_map.mp hk with ⟨p, hp, hfst⟩
    have := List.of_mem_filter hp
    simp only [decide_eq_true_eq] at this
    exact this hfst
  · exact h.sublist (l.filter_sublist.map Prod.fst)

/-! ## Error taxonomy (spec §7) -/

/-- Error kinds from the specification's taxonomy (§7). Each `panic!`
site of the source is mapped to the kind the spec names for it. -/
inductive Err where
  | InvalidAmount
  | Unauthorized
  | AlreadyInitialized
  | NotInitialized
  | InsufficientBalance
  | InsufficientAllowance
  | AllowanceExpired
  | AuctionNotOpen
  | AuctionCapacityExceeded
deriving DecidableEq, Repr

/-! ## Composite-token state -/

/-- Stored allowance record: amount plus expiration ledger
(`write_allowance(from, spender, amount, expiration_ledger)`). -/
structure AllowanceValue where
  amount : Int
  expiration_ledger : Nat
deriving DecidableEq, Repr

/-- Persistent storage of one `ConstellationToken` instance: admin and
manager identities, metadata, the ordered component list with parallel
unit amounts, holder balances and allowances. -/
structure TokenState where
  admin : Option Nat
  manager : Option Nat
  decimal : Nat
  name : String
  symbol : String
  components : List Nat
  amounts : List Nat
  balances : List (Nat × Int)
  allowances : List ((Nat × Nat) × AllowanceValue)
deriving DecidableEq, Repr

/-- The empty (uninitialized) contract instance. -/
def TokenState.empty : TokenState :=
  ⟨none, none, 0, "", "", [], [], [], []⟩

/-- `require_auth`: the ambient context must have authorized `a`,
otherwise the call aborts with `Unauthorized`. -/
def require_auth (auth : Nat → Bool) (a : Nat) : Except Err Unit :=
  if auth a then .ok () else .error .Unauthorized

/-- `check_nonnegative_amount` (contract.rs:20-24): panics exactly when
`amount < 0` ("negative amount is not allowed"). Note: zero is allowed. -/
def check_nonnegative_amount (amount : Int) : Except Err Unit :=
  if amount < 0 then .error .InvalidAmount else .ok ()

/-- Modelled from the spec: `read_balance` of the missing `balance.rs`
module — a holder's balance, zero when absent. -/
def read_balance (s : TokenState) (id : Nat) : Int :=
  (lookupKey s.balances id).getD 0

/-- Modelled from the spec: `receive_balance` of the missing
`balance.rs` module — credit `amount` to `to`. -/
def receive_balance (s : TokenState) (to_ : Nat) (amount : Int) : TokenState :=
  { s with balances := setKey s.balances to_ (read_balance s to_ + amount) }

/-- Modelled from the spec: `spend_balance` of the missing `balance.rs`
module — debit `amount` from `id`, failing with `InsufficientBalance`
when the balance does not cover it. -/
def spend_balance (s : TokenState) (id : Nat) (amount : Int) :
    Except Err TokenState :=
  let b := read_balance s id
  if b < amount then .error .InsufficientBalance
  else .ok { s with balances := setKey s.balances id (b - amount) }

/-- Modelled from the spec: `read_allowance` of the missing
`allowance.rs` module — the effective allowance of `(owner, spender)`
at ledger sequence `ledger`; an allowance past its expiration marker is
treated as zero (spec §3). -/
def read_allowance (s : TokenState) (ledger : Nat) (owner spender : Nat) :
    Int :=
  match lookupKey s.allowances (owner, spender) with
  | none => 0
  | some a => if a.expiration_ledger < ledger then 0 else a.amount

/-- Modelled from the spec: `write_allowance` of the missing
`allowance.rs` module. -/
def write_allowance (s : TokenState) (owner spender : Nat) (amount : Int)
    (expiration_ledger : Nat) : TokenState :=
  { s with
    allowances :=
      setKey s.allowances (owner, spender) ⟨amount, expiration_ledger⟩ }

/-- Modelled from the spec: `spend_allowance` of the missing
`allowance.rs` module — spending a positive amount from an expired
allowance fails with `AllowanceExpired`, spending more than the live
allowance fails with `InsufficientAllowance`, otherwise the stored
amount is decremented in place (spec §4.1, §3, Scenario B). -/
def spend_allowance (s : TokenState) (ledger : Nat) (owner spender : Nat)
    (amount : Int) : Except Err TokenState :=
  match lookupKey s.allowances (owner, spender) with
  | none =>
    if 0 < amount then .error .InsufficientAllowance else .ok s
  | some a =>
    if a.expiration_ledger < ledger then
      if 0 < amount then .error .AllowanceExpired else .ok s
    else if a.amount < amount then .error .InsufficientAllowance
    else
      .ok (write_allowance s owner spender (a.amount - amount)
            a.expiration_ledger)

/-! ## ConstellationToken entry points (contract.rs) -/

/-- `ConstellationToken::initialize` (contract.rs:31-57): fails when an
administrator is already set, otherwise records admin, metadata and the
component/amount lists. The `manager` argument is accepted but — as in
the source, which never calls a `write_manager` — not persisted. -/
def ConstellationToken.initialize (s : TokenState) (decimal : Nat)
    (components : List Nat) (amounts : List Nat) (admin : Nat)
    (_manager : Nat) (name symbol : String) : Except Err TokenState :=
  if s.admin.isSome then .error .AlreadyInitialized
  else
    .ok { s with
          admin := some admin
          decimal := decimal
          name := name
          symbol := symbol
          components := components
          amounts := amounts }

/-- `ConstellationToken::mint` (contract.rs:59-73): checks the amount
is non-negative, reads the administrator and requires the
administrator's authorization, then credits `to`. -/
def ConstellationToken.mint (auth : Nat → Bool) (s : TokenState) (to_ : Nat)
    (amount : Int) : Except Err TokenState :=
  match check_nonnegative_amount amount with
  | .error e => .error e
  | .ok _ =>
    match s.admin with
    | none => .error .NotInitialized
    | some admin =>
      match require_auth auth admin with
      | .error e => .error e
      | .ok _ => .ok (receive_balance s to_ amount)

/-- `ConstellationToken::burn` (contract.rs:75-90): requires `from`'s
own authorization (not the administrator's), checks the amount is
non-negative, then debits `from`. -/
def ConstellationToken.burn (auth : Nat → Bool) (s : TokenState)
    (from_ : Nat) (amount : Int) : Except Err TokenState :=
  match require_auth auth from_ with
  | .error e => .error e
  | .ok _ =>
    match check_nonnegative_amount amount with
    | .error e => .error e
    | .ok _ => spend_balance s from_ amount

/-- `balance` of the fungible interface (contract.rs:173-178). -/
def ConstellationToken.balance (s : TokenState) (id : Nat) : Int :=
  read_balance s id

/-- `spendable_balance` of the fungible interface (contract.rs:180-185):
the body is the same `read_balance` call as `balance`. -/
def ConstellationToken.spendable_balance (s : TokenState) (id : Nat) : Int :=
  read_balance s id

/-- `allowance` of the fungible interface (contract.rs:151-156). -/
def ConstellationToken.allowance (s : TokenState) (ledger : Nat)
    (from_ spender : Nat) : Int :=
  read_allowance s ledger from_ spender

/-- `approve` (contract.rs:158-171): requires `from`'s authorization,
rejects negative amounts, overwrites the stored allowance. -/
def ConstellationToken.approve (auth : Nat → Bool) (s : TokenState)
    (from_ spender : Nat) (amount : Int) (expiration_ledger : Nat) :
    Except Err TokenState :=
  match require_auth auth from_ with
  | .error e => .error e
  | .ok _ =>
    match check_nonnegative_amount amount with
    | .error e => .error e
    | .ok _ => .ok (write_allowance s from_ spender amount expiration_ledger)

/-- `transfer` (contract.rs:187-199). -/
def ConstellationToken.transfer (auth : Nat → Bool) (s : TokenState)
    (from_ to_ : Nat) (amount : Int) : Except Err TokenState :=
  match require_auth auth from_ with
  | .error e => .error e
  | .ok _ =>
    match check_nonnegative_amount amount with
    | .error e => .error e
    | .ok _ =>
      match spend_balance s from_ amount with
      | .error e => .error e
      | .ok s1 => .ok (receive_balance s1 to_ amount)

/-- `transfer_from` (contract.rs:201-214): spender authorization, amount
check, then `spend_allowance`, `spend_balance`, `receive_balance` in
that order. -/
def ConstellationToken.transfer_from (auth : Nat → Bool) (s : TokenState)
    (ledger : Nat) (spender from_ to_ : Nat) (amount : Int) :
    Except Err TokenState :=
  match require_auth auth spender with
  | .error e => .error e
  | .ok _ =>
    match check_nonnegative_amount amount with
    | .error e => .error e
    | .ok _ =>
      match spend_allowance s ledger from_ spender amount with
      | .error e => .error e
      | .ok s1 =>
        match spend_balance s1 from_ amount with
        | .error e => .error e
        | .ok s2 => .ok (receive_balance s2 to_ amount)

/-- `burn_from` (contract.rs:216-228): spender authorization, amount
check, then `spend_allowance` and `spend_balance` — no credit. -/
def ConstellationToken.burn_from (auth : Nat → Bool) (s : TokenState)
    (ledger : Nat) (spender from_ : Nat) (amount : Int) :
    Except Err TokenState :=
  match require_auth auth spender with
  | .error e => .error e
  | .ok _ =>
    match check_nonnegative_amount amount with
    | .error e => .error e
    | .ok _ =>
      match spend_allowance s ledger from_ spender amount with
      | .error e => .error e
      | .ok s1 => spend_balance s1 from_ amount

/-! ## Total supply -/

/-- Total composite supply: the sum of all holder balances. -/
def totalSupply (s : TokenState) : Int :=
  (s.balances.map Prod.snd).sum

/-- Every recorded balance is non-negative. -/
def NonnegBalances (s : TokenState) : Prop :=
  ∀ p ∈ s.balances, 0 ≤ p.2

theorem lookupKey_mem {κ β : Type} [DecidableEq κ]
    (l : List (κ × β)) (k : κ) (v : β) (h : lookupKey l k = some v) :
    (k, v) ∈ l := by
  induction l with
  | nil => simp [lookupKey] at h
  | cons p t ih =>
    simp only [lookupKey] at h
    by_cases hp : p.1 = k
    · rw [if_pos hp] at h
      injection h with hv
      subst hv
      have hkp : (k, p.2) = p := by rw [← hp]
      rw [hkp]
      exact List.mem_cons_self p t
    · rw [if_neg hp] at h
      exact List.mem_cons_of_mem p (ih h)

theorem read_balance_nonneg (s : TokenState) (id : Nat)
    (h : NonnegBalances s) : 0 ≤ read_balance s id := by
  unfold read_balance
  cases hl : lookupKey s.balances id with
  | none => simp
  | some v => simpa using h (id, v) (lookupKey_mem _ _ _ hl)

theorem sum_setKey (l : List (Nat × Int)) (k : Nat) (v : Int)
    (h : WFKeys l) :
    ((setKey l k v).map Prod.snd).sum =
      (l.map Prod.snd).sum - (lookupKey l k).getD 0 + v := by
  induction l with
  | nil => simp [setKey, lookupKey]
  | cons p t ih =>
    unfold WFKeys at h
    simp only [List.map_cons, List.nodup_cons] at h
    by_cases hp : p.1 = k
    · have hkt : k ∉ t.map Prod.fst := hp ▸ h.1
      simp only [setKey, List.filter_cons,
        if_neg (by simp [hp] : ¬ (decide (p.1 ≠ k) = true)),
        filter_ne_key_of_not_mem t k hkt, lookupKey, if_pos hp,
        List.map_cons, List.sum_cons, Option.getD_some]
      ring
    · have ih' := ih h.2
      simp only [setKey, List.filter_cons,
        if_pos (by simpa using hp : decide (p.1 ≠ k) = true),
        List.map_cons, List.sum_cons, lookupKey, if_neg hp] at ih' ⊢
      omega

theorem nonneg_setKey (s : List (Nat × Int)) (k : Nat) (v : Int)
    (hv : 0 ≤ v) (h : ∀ p ∈ s, 0 ≤ p.2) :
    ∀ p ∈ setKey s k v, 0 ≤ p.2 := by
  intro p hp
  rcases List.mem_cons.mp hp with rfl | hp
  · exact hv
  · exact h p (List.mem_of_mem_filter hp)

theorem totalSupply_receive (s : TokenState) (to_ : Nat) (amount : Int)
    (h : WFKeys s.balances) :
    totalSupply (receive_balance s to_ amount) = totalSupply s + amount := by
  unfold totalSupply receive_balance read_balance
  rw [sum_setKey _ _ _ h]
  omega

theorem spend_balance_ok (s : TokenState) (id : Nat) (amount : Int)
    (s' : TokenState) (h : spend_balance s id amount = .ok s') :
    amount ≤ read_balance s id ∧
      s' = { s with balances := setKey s.balances id (read_balance s id - amount) } := by
  unfold spend_balance at h
  by_cases hb : read_balance s id < amount
  · simp only [if_pos hb] at h
    cases h
  · simp only [if_neg hb] at h
    cases h
    exact ⟨le_of_not_lt hb, rfl⟩

theorem totalSupply_spend (s : TokenState) (id : Nat) (amount : Int)
    (s' : TokenState) (hwf : WFKeys s.balances)
    (h : spend_balance s id amount = .ok s') :
    totalSupply s' = totalSupply s - amount := by
  rcases spend_balance_ok s id amount s' h with ⟨_, rfl⟩
  unfold totalSupply read_balance
  simp only
  rw [sum_setKey _ _ _ hwf]
  omega

theorem totalSupply_nonneg (s : TokenState) (h : NonnegBalances s) :
    0 ≤ totalSupply s := by
  unfold totalSupply
  apply List.sum_nonneg
  intro x hx
  rcases List.mem_map.mp hx with ⟨p, hp, rfl⟩
  exact h p hp

/-! ## Mint/burn call traces (for the supply invariant) -/

/-- One external call to the composite token's privileged entry points,
together with the ambient authorization context of that call. -/
inductive MintBurnCall where
  | mintCall (auth : Nat → Bool) (to_ : Nat) (amount : Int)
  | burnCall (auth : Nat → Bool) (from_ : Nat) (amount : Int)

/-- Running tally of a trace: the contract state plus cumulative
successfully minted and burned amounts. -/
structure Trace where
  state : TokenState
  minted : Int
  burned : Int

/-- Execute one call: a failing call (Rust panic) leaves the persisted
state unchanged and contributes nothing to the cumulative tallies. -/
def stepCall (acc : Trace) : MintBurnCall → Trace
  | .mintCall auth to_ amount =>
    match ConstellationToken.mint auth acc.state to_ amount with
    | .ok s' => ⟨s', acc.minted + amount, acc.burned⟩
    | .error _ => acc
  | .burnCall auth from_ amount =>
    match ConstellationToken.burn auth acc.state from_ amount with
    | .ok s' => ⟨s', acc.minted, acc.burned + amount⟩
    | .error _ => acc

/-- Run a sequence of mint/burn calls from an initial state. -/
def runCalls (s0 : TokenState) (ops : List MintBurnCall) : Trace :=
  ops.foldl stepCall ⟨s0, 0, 0⟩

/-- Inductive invariant of a trace: well-formed balance keys, no
negative balance, and supply accounting. -/
def TraceInv (t : Trace) : Prop :=
  WFKeys t.state.balances ∧ NonnegBalances t.state ∧
    totalSupply t.state = t.minted - t.burned

theorem mint_ok (auth : Nat → Bool) (s : TokenState) (to_ : Nat)
    (amount : Int) (s' : TokenState)
    (h : ConstellationToken.mint auth s to_ amount = .ok s') :
    0 ≤ amount ∧ s' = receive_balance s to_ amount := by
  unfold ConstellationToken.mint check_nonnegative_amount require_auth at h
  by_cases h1 : amount < 0
  · simp [if_pos h1] at h
  · simp only [if_neg h1] at h
    cases hadm : s.admin with
    | none => rw [hadm] at h; cases h
    | some admin =>
      rw [hadm] at h
      by_cases h2 : auth admin
      · simp only [if_pos h2] at h
        cases h
        exact ⟨le_of_not_lt h1, rfl⟩
      · simp [if_neg h2] at h

theorem burn_ok (auth : Nat → Bool) (s : TokenState) (from_ : Nat)
    (amount : Int) (s' : TokenState)
    (h : ConstellationToken.burn auth s from_ amount = .ok s') :
    0 ≤ amount ∧ spend_balance s from_ amount = .ok s' := by
  unfold ConstellationToken.burn require_auth check_nonnegative_amount at h
  by_cases h1 : auth from_
  · simp only [if_pos h1] at h
    by_cases h2 : amount < 0
    · simp [if_pos h2] at h
    · simp only [if_neg h2] at h
      exact ⟨le_of_not_lt h2, h⟩
  · simp [if_neg h1] at h

theorem stepCall_inv (acc : Trace) (op : MintBurnCall) (h : TraceInv acc) :
    TraceInv (stepCall acc op) := by
  obtain ⟨hwf, hnn, hsum⟩ := h
  cases op with
  | mintCall auth to_ amount =>
    simp only [stepCall]
    cases hm : ConstellationToken.mint auth acc.state to_ amount with
    | error e => exact ⟨hwf, hnn, hsum⟩
    | ok s' =>
      rcases mint_ok auth acc.state to_ amount s' hm with ⟨hpos, rfl⟩
      have hb := read_balance_nonneg acc.state to_ hnn
      refine ⟨?_, ?_, ?_⟩
      · exact wfKeys_setKey _ _ _ hwf
      · intro p hp
        exact nonneg_setKey acc.state.balances to_
          (read_balance acc.state to_ + amount) (by omega) hnn p hp
      · show totalSupply (receive_balance acc.state to_ amount) =
          acc.minted + amount - acc.burned
        rw [totalSupply_receive _ _ _ hwf]
        omega
  | burnCall auth from_ amount =>
    simp only [stepCall]
    cases hm : ConstellationToken.burn auth acc.state from_ amount with
    | error e => exact ⟨hwf, hnn, hsum⟩
    | ok s' =>
      rcases burn_ok auth acc.state from_ amount s' hm with ⟨hpos, hsp⟩
      have hsup := totalSupply_spend _ _ _ _ hwf hsp
      obtain ⟨hle, rfl⟩ := spend_balance_ok _ _ _ _ hsp
      refine ⟨?_, ?_, ?_⟩
      · exact wfKeys_setKey _ _ _ hwf
      · intro p hp
        exact nonneg_setKey acc.state.balances from_
          (read_balance acc.state from_ - amount) (by omega) hnn p hp
      · show totalSupply
            { acc.state with
              balances := setKey acc.state.balances from_
                (read_balance acc.state from_ - amount) } =
          acc.minted - (acc.burned + amount)
        have h2 : totalSupply
            { acc.state with
              balances := setKey acc.state.balances from_
                (read_balance acc.state from_ - amount) } =
            totalSupply acc.state - amount := hsup
        omega

theorem foldl_inv (ops : List MintBurnCall) (acc : Trace)
    (h : TraceInv acc) : TraceInv (ops.foldl stepCall acc) := by
  induction ops generalizing acc with
  | nil => exact h
  | cons op rest ih => exact ih _ (stepCall_inv acc op h)

/-! ## Minter-burner orchestrator (lib.rs) -/

/-- Combined state seen by the orchestrator: the composite-token
instance plus the balances of the external component tokens, keyed by
(component-token identity, holder identity). -/
structure World where
  ctoken : TokenState
  componentBalances : List ((Nat × Nat) × Int)
deriving DecidableEq, Repr

/-- Balance of `holder` in the external component token `tok`. -/
def compBal (w : World) (tok holder : Nat) : Int :=
  (lookupKey w.componentBalances (tok, holder)).getD 0

/-- The external component-token `transfer(from, to, amount)` interface
(spec §6): fails on insufficient balance, otherwise moves `amount`. -/
def component_transfer (w : World) (tok from_ to_ : Nat) (amount : Int) :
    Except Err World :=
  if compBal w tok from_ < amount then .error .InsufficientBalance
  else
    let l1 := setKey w.componentBalances (tok, from_)
      (compBal w tok from_ - amount)
    .ok { w with
          componentBalances :=
            setKey l1 (tok, to_) ((lookupKey l1 (tok, to_)).getD 0 + amount) }

/-- Modelled from the spec: the per-component amount the orchestrator's
`mint` must pull — `amount × component.target_unit_amount` rounded up
(§4.3); on the integer convention of Scenario A the product is exact,
so the ceiling is the product itself (200 X and 300 Y for minting 100
against units [2, 3]). -/
def required_component_amount (amount : Int) (unit : Nat) : Int :=
  amount * unit

/-- Modelled from the spec: the component pulls of
`ConstellationMinterBurner::mint` (lib.rs:30-33, present in the source
only as comments) — for each basket component, transfer the required
amount from `from` into the basket's reserve held at the composite
token contract's address, aborting the whole call on the first failing
pull. -/
def pull_components_list (w : World) (ctokenAddr from_ : Nat)
    (amount : Int) : List (Nat × Nat) → Except Err World
  | [] => .ok w
  | (c, u) :: rest =>
    match component_transfer w c from_ ctokenAddr
        (required_component_amount amount u) with
    | .error e => .error e
    | .ok w' => pull_components_list w' ctokenAddr from_ amount rest

/-- Modelled from the spec: the component release of
`ConstellationMinterBurner::burn` (lib.rs:47-49, present in the source
only as comments) — after the composite burn, each component's
proportional amount (rounded down; exact on this integer convention)
is transferred from the reserve back to `from` (§4.3). -/
def push_components_list (w : World) (ctokenAddr from_ : Nat)
    (amount : Int) : List (Nat × Nat) → Except Err World
  | [] => .ok w
  | (c, u) :: rest =>
    match component_transfer w c ctokenAddr from_
        (required_component_amount amount u) with
    | .error e => .error e
    | .ok w' => push_components_list w' ctokenAddr from_ amount rest

/-- `ConstellationMinterBurner::mint` (lib.rs:23-37): requires `from`'s
authorization, pulls the component amounts (modelled from the spec —
the source carries them only as comments), then calls the composite
token's `mint`; the cross-contract call carries the minter-burner
contract's own address authorization (`mbAddr`). -/
def ConstellationMinterBurner.mint (mbAddr ctokenAddr : Nat)
    (auth : Nat → Bool) (w : World) (from_ to_ : Nat) (amount : Int) :
    Except Err World :=
  match require_auth auth from_ with
  | .error e => .error e
  | .ok _ =>
    match pull_components_list w ctokenAddr from_ amount
        (w.ctoken.components.zip w.ctoken.amounts) with
    | .error e => .error e
    | .ok w1 =>
      match ConstellationToken.mint (fun a => auth a || a == mbAddr)
          w1.ctoken to_ amount with
      | .error e => .error e
      | .ok s' => .ok { w1 with ctoken := s' }

/-- `ConstellationMinterBurner::burn` (lib.rs:41-52): calls the
composite token's `burn` for `from` (the user), then releases the
proportional component amounts from the reserve (modelled from the
spec — the source carries the release only as comments). -/
def ConstellationMinterBurner.burn (mbAddr ctokenAddr : Nat)
    (auth : Nat → Bool) (w : World) (from_ : Nat) (amount : Int) :
    Except Err World :=
  match ConstellationToken.burn (fun a => auth a || a == mbAddr)
      w.ctoken from_ amount with
  | .error e => .error e
  | .ok s' =>
    push_components_list { w with ctoken := s' } ctokenAddr from_ amount
      (w.ctoken.components.zip w.ctoken.amounts)

/-! ## Rebalance auction engine (spec §4.4; the source holds only a
pseudocode TODO at contract.rs:109-129, so the whole engine is
modelled from the spec) -/

/-- Auction lifecycle states (spec §4.4). -/
inductive AuctionState where
  | NotStarted
  | Open
  | AtFloor
  | Closed
deriving DecidableEq, Repr

/-- Modelled from the spec: per-component auction record (§3) — state,
starting price, floor price, the decay parameters (linear decay over
`durationLedgers`, per Scenario C), the signed target delta, the
magnitude filled so far, and the intermediate token identity. -/
structure Auction where
  state : AuctionState
  startPrice : Int
  floorPrice : Int
  durationLedgers : Nat
  startTime : Nat
  delta : Int
  filled : Int
  intermediateToken : Nat
deriving DecidableEq, Repr

/-- Modelled from the spec: the decayed execution price at a given
elapsed time — the linear decay of Scenario C clamped at the floor,
`max(floor, start − (start − floor)·elapsed/duration)` (§4.4). -/
def auction_price (a : Auction) (elapsed : Nat) : Int :=
  max a.floorPrice
    (a.startPrice -
      (a.startPrice - a.floorPrice) * (elapsed : Int) / (a.durationLedgers : Int))

/-- Remaining (unfilled) magnitude of the auction's signed delta. -/
def Auction.remaining (a : Auction) : Int :=
  (a.delta.natAbs : Int) - a.filled

/-- Modelled from the spec: `swap(component, requested_amount)` (§4.4)
— only `Open`/`AtFloor` auctions accept fills; a request exceeding the
remaining delta fails with `AuctionCapacityExceeded` and fills nothing;
otherwise the trade executes at `max(floor, decay(elapsed))`, the
filled amount grows by the request, and the auction closes when the
delta is exhausted. Returns the updated auction and the execution
price. -/
def Auction.swap (a : Auction) (now : Nat) (requested : Int) :
    Except Err (Auction × Int) :=
  if a.state = .Open ∨ a.state = .AtFloor then
    if a.remaining < requested then .error .AuctionCapacityExceeded
    else
      .ok ({ a with
             filled := a.filled + requested
             state :=
               if (a.delta.natAbs : Int) - (a.filled + requested) = 0 then
                 .Closed
               else a.state },
           auction_price a (now - a.startTime))
  else .error .AuctionNotOpen

/-- Scenario C auction: start price 5, floor price 1, linear decay over
100 ledgers, signed delta +1000, nothing filled, opened at time 0. -/
def scenC : Auction :=
  ⟨.Open, 5, 1, 100, 0, 1000, 0, 9⟩

theorem auction_price_decay_le (a : Auction) (e1 e2 : Nat)
    (hsf : a.floorPrice ≤ a.startPrice) (he : e1 ≤ e2) :
    a.startPrice - (a.startPrice - a.floorPrice) * (e2 : Int) /
        (a.durationLedgers : Int) ≤
      a.startPrice - (a.startPrice - a.floorPrice) * (e1 : Int) /
        (a.durationLedgers : Int) := by
  apply sub_le_sub_left
  rcases Nat.eq_zero_or_pos a.durationLedgers with hd | hd
  · simp [hd]
  · apply Int.ediv_le_ediv (by exact_mod_cast hd)
    apply mul_le_mul_of_nonneg_left (by exact_mod_cast he) (by omega)

/-- C7: within one auction lifetime with fixed parameters, the
execution price is monotonically non-increasing in elapsed time and is
clamped at (never below) the floor price. -/
theorem auction_price_monotone_clamped (a : Auction) (e1 e2 : Nat)
    (hsf : a.floorPrice ≤ a.startPrice) (he : e1 ≤ e2) :
    auction_price a e2 ≤ auction_price a e1 ∧
      a.floorPrice ≤ auction_price a e2 := by
  constructor
  · exact max_le_max le_rfl (auction_price_decay_le a e1 e2 hsf he)
  · exact le_max_left _ _

/-- Witness for C7 at the Scenario C parameters: the price at elapsed
50 is below the price at elapsed 0 and at least the floor. -/
theorem auction_price_monotone_clamped_witness :
    scenC.floorPrice ≤ scenC.startPrice ∧
    auction_price scenC 50 ≤ auction_price scenC 0 ∧
    scenC.floorPrice ≤ auction_price scenC 50 ∧
    auction_price scenC 50 = 3 ∧ auction_price scenC 0 = 5 :=
  ⟨by decide,
   (auction_price_monotone_clamped scenC 0 50 (by decide) (by decide)).1,
   (auction_price_monotone_clamped scenC 0 50 (by decide) (by decide)).2,
   by decide, by decide⟩

/-- C6: during an `Open`/`AtFloor` auction, a swap request exceeding
the remaining delta fails with `AuctionCapacityExceeded` and fills
nothing (the failing call returns no state), while a request within the
remaining delta always executes, at the price
`max(floor, decay(elapsed))`, filling exactly the requested amount. -/
theorem auction_swap_capacity (a : Auction) (now : Nat) (requested : Int)
    (hopen : a.state = .Open ∨ a.state = .AtFloor) :
    (a.remaining < requested →
      a.swap now requested = .error .AuctionCapacityExceeded) ∧
    (requested ≤ a.remaining →
      ∃ a', a.swap now requested =
          .ok (a', max a.floorPrice
            (a.startPrice - (a.startPrice - a.floorPrice) *
              ((now - a.startTime : Nat) : Int) / (a.durationLedgers : Int))) ∧
        a'.filled = a.filled + requested) := by
  constructor
  · intro hlt
    unfold Auction.swap
    rw [if_pos hopen, if_pos hlt]
  · intro hle
    unfold Auction.swap
    rw [if_pos hopen, if_neg (not_lt.mpr hle)]
    exact ⟨_, rfl, rfl⟩

/-- Witness for C6 at the Scenario C auction with elapsed 50: a request
of 1001 exceeds the remaining delta of 1000 and is rejected in full; a
request of exactly 1000 executes at price 3 and closes the auction. -/
theorem auction_swap_capacity_witness :
    scenC.remaining < 1001 ∧
    scenC.swap 50 1001 = .error .AuctionCapacityExceeded ∧
    (1000 : Int) ≤ scenC.remaining ∧
    (∃ a', scenC.swap 50 1000 =
        .ok (a', max scenC.floorPrice
          (scenC.startPrice - (scenC.startPrice - scenC.floorPrice) *
            ((50 - scenC.startTime : Nat) : Int) /
              (scenC.durationLedgers : Int))) ∧
      a'.filled = scenC.filled + 1000) ∧
    scenC.swap 50 1000 =
      .ok ({ scenC with filled := 1000, state := .Closed }, 3) :=
  ⟨by decide,
   (auction_swap_capacity scenC 50 1001 (by decide)).1 (by decide),
   by decide,
   (auction_swap_capacity scenC 50 1000 (by decide)).2 (by decide),
   rfl⟩

/-- C9: `spendable_balance` returns exactly the same value as `balance`
for every holder and every state — both entry points read the same
`read_balance` (contract.rs:173-185). -/
theorem spendable_balance_eq_balance (s : TokenState) (id : Nat) :
    ConstellationToken.spendable_balance s id =
      ConstellationToken.balance s id := rfl

/-- C8: once an administrator is set, every further `initialize` call
fails with `AlreadyInitialized`; the check precedes every write
(contract.rs:41-43), and the failing call (a Rust panic) persists no
change. -/
theorem initialize_twice_fails (s : TokenState) (a : Nat)
    (hinit : s.admin = some a) (decimal : Nat)
    (components amounts : List Nat) (admin manager : Nat)
    (name symbol : String) :
    ConstellationToken.initialize s decimal components amounts admin
        manager name symbol = .error .AlreadyInitialized := by
  unfold ConstellationToken.initialize
  rw [hinit]
  rfl

/-- Witness for C8: re-initializing an already-initialized instance
fails with `AlreadyInitialized`. -/
theorem initialize_twice_fails_witness :
    ConstellationToken.initialize { TokenState.empty with admin := some 8 }
        7 [1, 2] [2, 3] 8 9 "Constellation" "CST" =
      .error .AlreadyInitialized :=
  initialize_twice_fails _ 8 rfl 7 [1, 2] [2, 3] 8 9 "Constellation" "CST"

/-- C1 (code bug): `ConstellationToken::burn` (contract.rs:75-90)
requires only `from`'s own authorization — `from.require_auth()` —
and never consults the stored administrator, contradicting the
contract's own header comment ("can only be minted or burned by the
Constellation Minter Burner contract", contract.rs:7) and `mint`'s
`admin.require_auth()`. Concretely: with admin 0 and a context in
which only holder 5 (not the admin) is authorized, `burn(5, 10)`
succeeds and changes holder 5's balance instead of failing with
`Unauthorized`. -/
theorem burn_by_nonadmin_succeeds :
    ((fun a => a == 5) 0 = false) ∧
    ConstellationToken.burn (fun a => a == 5)
        { TokenState.empty with admin := some 0, balances := [(5, 10)] }
        5 10 =
      .ok { TokenState.empty with admin := some 0, balances := [(5, 0)] } :=
  ⟨rfl, rfl⟩

/-- Demonstration trace for C3: a successful mint of 100 followed by a
successful burn of 40. -/
def demoOps : List MintBurnCall :=
  [.mintCall (fun a => a == 0) 5 100, .burnCall (fun a => a == 5) 5 40]

/-- C3: along every sequence of composite-token `mint`/`burn` calls
from an initialized state (no balances yet), the total supply — the sum
of all holder balances — equals cumulative successfully minted minus
cumulative successfully burned, and is never negative. Failing calls
(Rust panics) persist nothing and count toward neither tally. -/
theorem mint_burn_supply_invariant (s0 : TokenState)
    (h0 : s0.balances = []) (ops : List MintBurnCall) :
    totalSupply (runCalls s0 ops).state =
      (runCalls s0 ops).minted - (runCalls s0 ops).burned ∧
    0 ≤ totalSupply (runCalls s0 ops).state := by
  have h : TraceInv (runCalls s0 ops) := by
    apply foldl_inv
    refine ⟨?_, ?_, ?_⟩ <;>
      simp [WFKeys, NonnegBalances, totalSupply, h0]
  exact ⟨h.2.2, totalSupply_nonneg _ h.2.1⟩

/-- Witness for C3 on the demonstration trace: supply accounting holds,
and the trace really does mint 100 and burn 40, ending at supply 60. -/
theorem mint_burn_supply_invariant_witness :
    (totalSupply (runCalls { TokenState.empty with admin := some 0 } demoOps).state =
      (runCalls { TokenState.empty with admin := some 0 } demoOps).minted -
        (runCalls { TokenState.empty with admin := some 0 } demoOps).burned ∧
    0 ≤ totalSupply (runCalls { TokenState.empty with admin := some 0 } demoOps).state) ∧
    (runCalls { TokenState.empty with admin := some 0 } demoOps).minted = 100 ∧
    (runCalls { TokenState.empty with admin := some 0 } demoOps).burned = 40 ∧
    totalSupply (runCalls { TokenState.empty with admin := some 0 } demoOps).state = 60 :=
  ⟨mint_burn_supply_invariant _ rfl demoOps, rfl, rfl, rfl⟩

/-! ## Allowance-spending lemmas (for `transfer_from` / `burn_from`) -/

theorem spend_balance_error (s : TokenState) (id : Nat) (amount : Int)
    (e : Err) (h : spend_balance s id amount = .error e) :
    e = .InsufficientBalance := by
  unfold spend_balance at h
  by_cases hb : read_balance s id < amount
  · rw [if_pos hb] at h
    injection h with h
    exact h.symm
  · rw [if_neg hb] at h
    cases h

theorem read_allowance_congr (s s' : TokenState) (ledger : Nat)
    (owner spender : Nat) (h : s'.allowances = s.allowances) :
    read_allowance s' ledger owner spender =
      read_allowance s ledger owner spender := by
  unfold read_allowance
  rw [h]

theorem read_balance_congr (s s' : TokenState) (id : Nat)
    (h : s'.balances = s.balances) :
    read_balance s' id = read_balance s id := by
  unfold read_balance
  rw [h]

theorem spend_allowance_ok (s : TokenState) (ledger : Nat)
    (owner spender : Nat) (amount : Int) (s' : TokenState)
    (hamt : 0 ≤ amount)
    (h : spend_allowance s ledger owner spender amount = .ok s') :
    read_allowance s' ledger owner spender =
      read_allowance s ledger owner spender - amount ∧
    0 ≤ read_allowance s' ledger owner spender ∧
    s'.balances = s.balances := by
  unfold spend_allowance at h
  cases hl : lookupKey s.allowances (owner, spender) with
  | none =>
    rw [hl] at h
    by_cases hp : 0 < amount
    · rw [if_pos hp] at h
      cases h
    · rw [if_neg hp] at h
      cases h
      have h0 : amount = 0 := le_antisymm (not_lt.mp hp) hamt
      have hra : read_allowance s ledger owner spender = 0 := by
        simp [read_allowance, hl]
      exact ⟨by omega, by omega, rfl⟩
  | some a =>
    rw [hl] at h
    dsimp only at h
    by_cases hexp : a.expiration_ledger < ledger
    · rw [if_pos hexp] at h
      by_cases hp : 0 < amount
      · rw [if_pos hp] at h
        cases h
      · rw [if_neg hp] at h
        cases h
        have h0 : amount = 0 := le_antisymm (not_lt.mp hp) hamt
        have hra : read_allowance s ledger owner spender = 0 := by
          simp [read_allowance, hl, hexp]
        exact ⟨by omega, by omega, rfl⟩
    · rw [if_neg hexp] at h
      by_cases hlt : a.amount < amount
      · rw [if_pos hlt] at h
        cases h
      · rw [if_neg hlt] at h
        cases h
        have hra : read_allowance s ledger owner spender = a.amount := by
          simp [read_allowance, hl, hexp]
        have hra' : read_allowance
            (write_allowance s owner spender (a.amount - amount)
              a.expiration_ledger) ledger owner spender =
            a.amount - amount := by
          simp [read_allowance, write_allowance, lookupKey_setKey_same, hexp]
        exact ⟨by omega, by omega, rfl⟩

/-- C4: on every successful `transfer_from`, the `(from, spender)`
allowance decreases by exactly the transferred amount and never ends
below zero; and every `InsufficientAllowance`/`AllowanceExpired`
failure is already the result of `spend_allowance` on the pristine
state — the allowance spend precedes the balance spend
(contract.rs:210-212), so the failure occurs before any balance is
touched (and, the call being a rolled-back panic, no state persists). -/
theorem transfer_from_allowance_atomic (auth : Nat → Bool) (s : TokenState)
    (ledger : Nat) (spender from_ to_ : Nat) (amount : Int) :
    (∀ s', ConstellationToken.transfer_from auth s ledger spender from_ to_
        amount = .ok s' →
      ConstellationToken.allowance s' ledger from_ spender =
        ConstellationToken.allowance s ledger from_ spender - amount ∧
      0 ≤ ConstellationToken.allowance s' ledger from_ spender) ∧
    (∀ e, ConstellationToken.transfer_from auth s ledger spender from_ to_
        amount = .error e →
      e = .InsufficientAllowance ∨ e = .AllowanceExpired →
      spend_allowance s ledger from_ spender amount = .error e) := by
  constructor
  · intro s' h
    unfold ConstellationToken.transfer_from require_auth
      check_nonnegative_amount at h
    by_cases hau : auth spender
    · rw [if_pos hau] at h
      dsimp only at h
      by_cases hneg : amount < 0
      · rw [if_pos hneg] at h
        dsimp only at h
        cases h
      · rw [if_neg hneg] at h
        dsimp only at h
        cases hsa : spend_allowance s ledger from_ spender amount with
        | error e0 =>
          rw [hsa] at h
          dsimp only at h
          cases h
        | ok s1 =>
          rw [hsa] at h
          dsimp only at h
          obtain ⟨ha1, ha2, hb1⟩ :=
            spend_allowance_ok s ledger from_ spender amount s1
              (le_of_not_lt hneg) hsa
          cases hsb : spend_balance s1 from_ amount with
          | error e0 =>
            rw [hsb] at h
            dsimp only at h
            cases h
          | ok s2 =>
            rw [hsb] at h
            dsimp only at h
            injection h with h
            subst h
            obtain ⟨hle, rfl⟩ := spend_balance_ok s1 from_ amount s2 hsb
            exact ⟨ha1, ha2⟩
    · rw [if_neg hau] at h
      dsimp only at h
      cases h
  · intro e h he
    unfold ConstellationToken.transfer_from require_auth
      check_nonnegative_amount at h
    by_cases hau : auth spender
    · rw [if_pos hau] at h
      dsimp only at h
      by_cases hneg : amount < 0
      · rw [if_pos hneg] at h
        dsimp only at h
        injection h with h
        subst h
        rcases he with he | he <;> cases he
      · rw [if_neg hneg] at h
        dsimp only at h
        cases hsa : spend_allowance s ledger from_ spender amount with
        | error e0 =>
          rw [hsa] at h
          dsimp only at h
          injection h with h
          subst h
          rfl
        | ok s1 =>
          rw [hsa] at h
          dsimp only at h
          cases hsb : spend_balance s1 from_ amount with
          | error e0 =>
            rw [hsb] at h
            dsimp only at h
            injection h with h
            subst h
            have hsberr := spend_balance_error s1 from_ amount e0 hsb
            subst hsberr
            rcases he with he | he <;> cases he
          | ok s2 =>
            rw [hsb] at h
            dsimp only at h
            cases h
    · rw [if_neg hau] at h
      dsimp only at h
      injection h with h
      subst h
      rcases he with he | he <;> cases he

/-- Pre-state for the C4 witness: holder 1 has balance 100 and has
approved spender 2 an allowance of 50 expiring at ledger 1000. -/
def s4 : TokenState :=
  { TokenState.empty with
    balances := [(1, 100)]
    allowances := [((1, 2), ⟨50, 1000⟩)] }

/-- Post-state of the C4 witness transfer. -/
def s4' : TokenState :=
  { TokenState.empty with
    balances := [(3, 10), (1, 90)]
    allowances := [((1, 2), ⟨40, 1000⟩)] }

/-- Witness for C4: at ledger 900, spender 2 moves 10 from holder 1 to
holder 3; the allowance drops from 50 to exactly 40 and stays
non-negative. -/
theorem transfer_from_allowance_atomic_witness :
    ConstellationToken.transfer_from (fun a => a == 2) s4 900 2 1 3 10 =
      .ok s4' ∧
    (ConstellationToken.allowance s4' 900 1 2 =
       ConstellationToken.allowance s4 900 1 2 - 10 ∧
     0 ≤ ConstellationToken.allowance s4' 900 1 2) ∧
    ConstellationToken.allowance s4' 900 1 2 = 40 :=
  ⟨rfl,
   (transfer_from_allowance_atomic (fun a => a == 2) s4 900 2 1 3 10).1
     s4' rfl,
   rfl⟩

theorem spend_balance_balances (s : TokenState) (id : Nat) (amount : Int)
    (s' : TokenState) (h : spend_balance s id amount = .ok s') :
    read_balance s' id = read_balance s id - amount ∧
    (∀ j, j ≠ id → read_balance s' j = read_balance s j) ∧
    s'.allowances = s.allowances := by
  obtain ⟨hle, rfl⟩ := spend_balance_ok s id amount s' h
  refine ⟨?_, ?_, rfl⟩
  · unfold read_balance
    dsimp only
    rw [lookupKey_setKey_same]
    rfl
  · intro j hj
    unfold read_balance
    dsimp only
    rw [lookupKey_setKey_ne _ _ _ _ hj]

/-- C10: on every successful `burn_from`, the `(from, spender)`
allowance decreases by exactly the burned amount, `from`'s balance
decreases by exactly that amount, total supply decreases by exactly
that amount, and no other holder's balance changes
(contract.rs:216-228: `spend_allowance` then `spend_balance`, no
credit). -/
theorem burn_from_effects (auth : Nat → Bool) (s : TokenState)
    (ledger : Nat) (spender from_ : Nat) (amount : Int) (s' : TokenState)
    (hwf : WFKeys s.balances)
    (h : ConstellationToken.burn_from auth s ledger spender from_ amount =
      .ok s') :
    ConstellationToken.allowance s' ledger from_ spender =
      ConstellationToken.allowance s ledger from_ spender - amount ∧
    ConstellationToken.balance s' from_ =
      ConstellationToken.balance s from_ - amount ∧
    totalSupply s' = totalSupply s - amount ∧
    ∀ id, id ≠ from_ →
      ConstellationToken.balance s' id = ConstellationToken.balance s id := by
  unfold ConstellationToken.burn_from require_auth
    check_nonnegative_amount at h
  by_cases hau : auth spender
  · rw [if_pos hau] at h
    dsimp only at h
    by_cases hneg : amount < 0
    · rw [if_pos hneg] at h
      dsimp only at h
      cases h
    · rw [if_neg hneg] at h
      dsimp only at h
      cases hsa : spend_allowance s ledger from_ spender amount with
      | error e0 =>
        rw [hsa] at h
        dsimp only at h
        cases h
      | ok s1 =>
        rw [hsa] at h
        dsimp only at h
        obtain ⟨ha1, ha2, hb1⟩ :=
          spend_allowance_ok s ledger from_ spender amount s1
            (le_of_not_lt hneg) hsa
        have hwf1 : WFKeys s1.balances := by rw [hb1]; exact hwf
        have hsup := totalSupply_spend s1 from_ amount s' hwf1 h
        obtain ⟨hba, hbframe, hallow⟩ :=
          spend_balance_balances s1 from_ amount s' h
        have hsupc : totalSupply s1 = totalSupply s := by
          unfold totalSupply
          rw [hb1]
        refine ⟨?_, ?_, by omega, ?_⟩
        · rw [show ConstellationToken.allowance s' ledger from_ spender =
              read_allowance s' ledger from_ spender from rfl,
            read_allowance_congr s1 s' ledger from_ spender hallow]
          exact ha1
        · rw [show ConstellationToken.balance s' from_ =
              read_balance s' from_ from rfl, hba,
            read_balance_congr s s1 from_ hb1]
          rfl
        · intro id hid
          rw [show ConstellationToken.balance s' id =
              read_balance s' id from rfl, hbframe id hid,
            read_balance_congr s s1 id hb1]
          rfl
  · rw [if_neg hau] at h
    dsimp only at h
    cases h

/-- Pre-state for the C10 witness: holder 1 has balance 100 and has
approved spender 2 an allowance of 50 expiring at ledger 1000. -/
def s10 : TokenState :=
  { TokenState.empty with
    balances := [(1, 100)]
    allowances := [((1, 2), ⟨50, 1000⟩)] }

/-- Post-state of the C10 witness burn. -/
def s10' : TokenState :=
  { TokenState.empty with
    balances := [(1, 90)]
    allowances := [((1, 2), ⟨40, 1000⟩)] }

/-- Witness for C10: at ledger 900, spender 2 burns 10 from holder 1;
the allowance drops to 40, holder 1's balance to 90, total supply to
90, and an unrelated holder (7) is untouched. -/
theorem burn_from_effects_witness :
    ConstellationToken.burn_from (fun a => a == 2) s10 900 2 1 10 =
      .ok s10' ∧
    ConstellationToken.allowance s10' 900 1 2 =
      ConstellationToken.allowance s10 900 1 2 - 10 ∧
    ConstellationToken.balance s10' 1 =
      ConstellationToken.balance s10 1 - 10 ∧
    totalSupply s10' = totalSupply s10 - 10 ∧
    ConstellationToken.balance s10' 7 = ConstellationToken.balance s10 7 :=
  ⟨rfl,
   (burn_from_effects (fun a => a == 2) s10 900 2 1 10 s10'
     (by unfold WFKeys; decide) rfl).1,
   (burn_from_effects (fun a => a == 2) s10 900 2 1 10 s10'
     (by unfold WFKeys; decide) rfl).2.1,
   (burn_from_effects (fun a => a == 2) s10 900 2 1 10 s10'
     (by unfold WFKeys; decide) rfl).2.2.1,
   (burn_from_effects (fun a => a == 2) s10 900 2 1 10 s10'
     (by unfold WFKeys; decide) rfl).2.2.2 7 (by decide)⟩

/-! ## Component-pull lemmas (orchestrator mint/burn) -/

theorem component_transfer_ctoken (w : World) (tok from_ to_ : Nat)
    (amount : Int) (w' : World)
    (h : component_transfer w tok from_ to_ amount = .ok w') :
    w'.ctoken = w.ctoken := by
  unfold component_transfer at h
  by_cases hb : compBal w tok from_ < amount
  · rw [if_pos hb] at h
    cases h
  · rw [if_neg hb] at h
    dsimp only at h
    injection h with h
    subst h
    rfl

theorem component_transfer_frame (w : World) (tok from_ to_ : Nat)
    (amount : Int) (w' : World)
    (h : component_transfer w tok from_ to_ amount = .ok w')
    (tok' hh : Nat) (htok : tok' ≠ tok) :
    compBal w' tok' hh = compBal w tok' hh := by
  unfold component_transfer at h
  by_cases hb : compBal w tok from_ < amount
  · rw [if_pos hb] at h
    cases h
  · rw [if_neg hb] at h
    dsimp only at h
    injection h with h
    subst h
    unfold compBal
    dsimp only
    rw [lookupKey_setKey_ne _ _ _ _
        (fun he => htok (congrArg Prod.fst he)),
      lookupKey_setKey_ne _ _ _ _
        (fun he => htok (congrArg Prod.fst he))]

theorem component_transfer_effect (w : World) (tok from_ to_ : Nat)
    (amount : Int) (w' : World) (hne : from_ ≠ to_)
    (h : component_transfer w tok from_ to_ amount = .ok w') :
    compBal w' tok from_ = compBal w tok from_ - amount ∧
    compBal w' tok to_ = compBal w tok to_ + amount := by
  unfold component_transfer at h
  by_cases hb : compBal w tok from_ < amount
  · rw [if_pos hb] at h
    cases h
  · rw [if_neg hb] at h
    dsimp only at h
    injection h with h
    subst h
    constructor
    · unfold compBal
      dsimp only
      rw [lookupKey_setKey_ne _ _ _ _
          (fun he => hne (congrArg Prod.snd he)),
        lookupKey_setKey_same, Option.getD_some]
    · unfold compBal
      dsimp only
      rw [lookupKey_setKey_same, Option.getD_some,
        lookupKey_setKey_ne _ _ _ _
          (fun he => hne (congrArg Prod.snd he).symm)]

theorem component_transfer_self (w : World) (tok from_ : Nat)
    (amount : Int) (w' : World)
    (h : component_transfer w tok from_ from_ amount = .ok w') :
    compBal w' tok from_ = compBal w tok from_ := by
  unfold component_transfer at h
  by_cases hb : compBal w tok from_ < amount
  · rw [if_pos hb] at h
    cases h
  · rw [if_neg hb] at h
    dsimp only at h
    injection h with h
    subst h
    unfold compBal
    dsimp only
    rw [lookupKey_setKey_same, Option.getD_some, lookupKey_setKey_same,
      Option.getD_some]
    omega

theorem pull_components_list_ctoken (ctokenAddr from_ : Nat)
    (amount : Int) :
    ∀ (pairs : List (Nat × Nat)) (w w' : World),
      pull_components_list w ctokenAddr from_ amount pairs = .ok w' →
      w'.ctoken = w.ctoken
  | [], w, w', h => by
    unfold pull_components_list at h
    injection h with h
    rw [← h]
  | (c, u) :: rest, w, w', h => by
    unfold pull_components_list at h
    cases hct : component_transfer w c from_ ctokenAddr
        (required_component_amount amount u) with
    | error e =>
      rw [hct] at h
      cases h
    | ok w1 =>
      rw [hct] at h
      dsimp only at h
      rw [pull_components_list_ctoken ctokenAddr from_ amount rest w1 w' h,
        component_transfer_ctoken w c from_ ctokenAddr _ w1 hct]

theorem pull_components_list_frame (ctokenAddr from_ : Nat) (amount : Int) :
    ∀ (pairs : List (Nat × Nat)) (w w' : World),
      pull_components_list w ctokenAddr from_ amount pairs = .ok w' →
      ∀ tok, tok ∉ pairs.map Prod.fst → ∀ hh,
        compBal w' tok hh = compBal w tok hh
  | [], w, w', h, tok, htok, hh => by
    unfold pull_components_list at h
    injection h with h
    rw [← h]
  | (c, u) :: rest, w, w', h, tok, htok, hh => by
    unfold pull_components_list at h
    simp only [List.map_cons, List.mem_cons, not_or] at htok
    cases hct : component_transfer w c from_ ctokenAddr
        (required_component_amount amount u) with
    | error e =>
      rw [hct] at h
      cases h
    | ok w1 =>
      rw [hct] at h
      dsimp only at h
      rw [pull_components_list_frame ctokenAddr from_ amount rest w1 w' h
          tok htok.2 hh,
        component_transfer_frame w c from_ ctokenAddr _ w1 hct tok hh htok.1]

theorem zip_fst_sublist {α β : Type} :
    ∀ (l1 : List α) (l2 : List β),
      ((l1.zip l2).map Prod.fst).Sublist l1
  | [], _ => by simp
  | _ :: _, [] => by simp
  | a :: t1, b :: t2 => by
    simp only [List.zip_cons_cons, List.map_cons]
    exact (zip_fst_sublist t1 t2).cons₂ a

theorem pull_components_list_effect (ctokenAddr from_ : Nat)
    (amount : Int) (hfr : from_ ≠ ctokenAddr) :
    ∀ (pairs : List (Nat × Nat)) (w w' : World),
      (pairs.map Prod.fst).Nodup →
      pull_components_list w ctokenAddr from_ amount pairs = .ok w' →
      ∀ cu ∈ pairs,
        compBal w' cu.1 ctokenAddr =
          compBal w cu.1 ctokenAddr + required_component_amount amount cu.2 ∧
        compBal w' cu.1 from_ =
          compBal w cu.1 from_ - required_component_amount amount cu.2
  | [], w, w', hnd, h, cu, hcu => by cases hcu
  | (c, u) :: rest, w, w', hnd, h, cu, hcu => by
    unfold pull_components_list at h
    simp only [List.map_cons, List.nodup_cons] at hnd
    cases hct : component_transfer w c from_ ctokenAddr
        (required_component_amount amount u) with
    | error e =>
      rw [hct] at h
      cases h
    | ok w1 =>
      rw [hct] at h
      dsimp only at h
      rcases List.mem_cons.mp hcu with rfl | hcu
    
      · have hfr1 := pull_components_list_frame ctokenAddr from_ amount rest
          w1 w' h c hnd.1
        have heff := component_transfer_effect w c from_ ctokenAddr
          (required_component_amount amount u) w1 hfr hct
        exact ⟨by rw [hfr1 ctokenAddr, heff.2],
          by rw [hfr1 from_, heff.1]⟩
      · have hc1 : cu.1 ≠ c := by
          intro he
          exact hnd.1 (he ▸ List.mem_map_of_mem Prod.fst hcu)
        have hfrm := component_transfer_frame w c from_ ctokenAddr
          (required_component_amount amount u) w1 hct cu.1
        have ih := pull_components_list_effect ctokenAddr from_ amount hfr
          rest w1 w' hnd.2 h cu hcu
        exact ⟨by rw [ih.1, hfrm ctokenAddr hc1],
          by rw [ih.2, hfrm from_ hc1]⟩

theorem pull_components_list_ok_of_nonpos (ctokenAddr from_ : Nat)
    (amount : Int) (hamt : amount ≤ 0) :
    ∀ (pairs : List (Nat × Nat)) (w : World),
      (∀ c, 0 ≤ compBal w c from_) →
      ∃ w', pull_components_list w ctokenAddr from_ amount pairs = .ok w'
  | [], w, hw => ⟨w, rfl⟩
  | (c, u) :: rest, w, hw => by
    have hreq : required_component_amount amount u ≤ 0 := by
      unfold required_component_amount
      have hu : (0 : Int) ≤ (u : Int) := Int.natCast_nonneg u
      nlinarith
    cases hct : component_transfer w c from_ ctokenAddr
        (required_component_amount amount u) with
    | error e =>
      exfalso
      unfold component_transfer at hct
      rw [if_neg (not_lt.mpr (le_trans hreq (hw c)))] at hct
      dsimp only at hct
      cases hct
    | ok w1 =>
      have hinv : ∀ c', 0 ≤ compBal w1 c' from_ := by
        intro c'
        by_cases hcc : c' = c
        · subst hcc
          by_cases hfc : from_ = ctokenAddr
          · rw [hfc] at hct
            rw [show compBal w1 c' from_ = compBal w1 c' ctokenAddr from
                hfc ▸ rfl,
              component_transfer_self w c' ctokenAddr _ w1 hct]
            exact hfc ▸ hw c'
          · have := (component_transfer_effect w c' from_ ctokenAddr
              (required_component_amount amount u) w1 hfc hct).1
            rw [this]
            have := hw c'
            omega
        · rw [component_transfer_frame w c from_ ctokenAddr _ w1 hct c'
            from_ hcc]
          exact hw c'
      obtain ⟨w', hw'⟩ := pull_components_list_ok_of_nonpos ctokenAddr
        from_ amount hamt rest w1 hinv
      refine ⟨w', ?_⟩
      unfold pull_components_list
      rw [hct]
      exact hw'

/-- C2: on every successful orchestrator `mint`, each basket component
contributed `amount × target_unit_amount` out of `from` into the
reserve held at the composite-token contract's address, the composite
supply grew by exactly `amount`, and the composite mint was invoked on
the post-pull state — i.e. only after every component pull succeeded
(a failing pull aborts the whole call with nothing persisted). -/
theorem orchestrator_mint_pulls (mbAddr ctokenAddr : Nat)
    (auth : Nat → Bool) (w : World) (from_ to_ : Nat) (amount : Int)
    (w' : World)
    (hnodup : w.ctoken.components.Nodup)
    (hfr : from_ ≠ ctokenAddr)
    (hwf : WFKeys w.ctoken.balances)
    (hok : ConstellationMinterBurner.mint mbAddr ctokenAddr auth w from_ to_
      amount = .ok w') :
    (∀ cu ∈ w.ctoken.components.zip w.ctoken.amounts,
      compBal w' cu.1 ctokenAddr =
        compBal w cu.1 ctokenAddr + required_component_amount amount cu.2 ∧
      compBal w' cu.1 from_ =
        compBal w cu.1 from_ - required_component_amount amount cu.2) ∧
    totalSupply w'.ctoken = totalSupply w.ctoken + amount ∧
    (∃ w1, pull_components_list w ctokenAddr from_ amount
        (w.ctoken.components.zip w.ctoken.amounts) = .ok w1 ∧
      ConstellationToken.mint (fun a => auth a || a == mbAddr) w1.ctoken to_
        amount = .ok w'.ctoken) := by
  unfold ConstellationMinterBurner.mint require_auth at hok
  by_cases hau : auth from_
  · rw [if_pos hau] at hok
    dsimp only at hok
    cases hp : pull_components_list w ctokenAddr from_ amount
        (w.ctoken.components.zip w.ctoken.amounts) with
    | error e =>
      rw [hp] at hok
      cases hok
    | ok w1 =>
      rw [hp] at hok
      dsimp only at hok
      cases hm : ConstellationToken.mint (fun a => auth a || a == mbAddr)
          w1.ctoken to_ amount with
      | error e =>
        rw [hm] at hok
        cases hok
      | ok s' =>
        rw [hm] at hok
        dsimp only at hok
        injection hok with hok
        subst hok
        have hzn : ((w.ctoken.components.zip w.ctoken.amounts).map
            Prod.fst).Nodup :=
          hnodup.sublist (zip_fst_sublist _ _)
        have heff := pull_components_list_effect ctokenAddr from_ amount hfr
          _ w w1 hzn hp
        have hct1 := pull_components_list_ctoken ctokenAddr from_ amount _
          w w1 hp
        obtain ⟨hpos, rfl⟩ := mint_ok _ w1.ctoken to_ amount s' hm
        refine ⟨?_, ?_, w1, rfl, ?_⟩
        · intro cu hcu
          exact heff cu hcu
        · show totalSupply (receive_balance w1.ctoken to_ amount) =
            totalSupply w.ctoken + amount
          rw [totalSupply_receive _ _ _ (by rw [hct1]; exact hwf), hct1]
        · exact hm
  · rw [if_neg hau] at hok
    cases hok

/-- Scenario A world: basket components [1, 2] with unit amounts
[2, 3], decimal 7, admin the minter-burner (8); holder 10 owns 200 of
component 1 and 300 of component 2. -/
def scenA : World :=
  ⟨{ TokenState.empty with
     admin := some 8
     decimal := 7
     components := [1, 2]
     amounts := [2, 3] },
   [((1, 10), 200), ((2, 10), 300)]⟩

/-- Post-state of the Scenario A mint: the reserve (held at the
composite token's address 7) gained 200 of component 1 and 300 of
component 2, holder 10 is drained, and holder 11 has 100 composite
units. -/
def scenAResult : World :=
  ⟨{ TokenState.empty with
     admin := some 8
     decimal := 7
     components := [1, 2]
     amounts := [2, 3]
     balances := [(11, 100)] },
   [((2, 7), 300), ((2, 10), 0), ((1, 7), 200), ((1, 10), 0)]⟩

/-- Witness for C2 (Scenario A): minting 100 composite units to holder
11 pulls 200 of component 1 and 300 of component 2 from holder 10 into
the reserve, and total composite supply becomes 100. -/
theorem orchestrator_mint_pulls_witness :
    ConstellationMinterBurner.mint 8 7 (fun a => a == 10) scenA 10 11 100 =
      .ok scenAResult ∧
    compBal scenAResult 1 7 = compBal scenA 1 7 +
      required_component_amount 100 2 ∧
    compBal scenAResult 2 7 = compBal scenA 2 7 +
      required_component_amount 100 3 ∧
    compBal scenAResult 1 10 = 0 ∧ compBal scenAResult 2 10 = 0 ∧
    totalSupply scenAResult.ctoken = totalSupply scenA.ctoken + 100 ∧
    totalSupply scenAResult.ctoken = 100 :=
  ⟨rfl,
   ((orchestrator_mint_pulls 8 7 (fun a => a == 10) scenA 10 11 100
       scenAResult (by decide) (by decide) (by unfold WFKeys; decide)
       rfl).1 (1, 2) (by decide)).1,
   ((orchestrator_mint_pulls 8 7 (fun a => a == 10) scenA 10 11 100
       scenAResult (by decide) (by decide) (by unfold WFKeys; decide)
       rfl).1 (2, 3) (by decide)).1,
   by decide, by decide,
   (orchestrator_mint_pulls 8 7 (fun a => a == 10) scenA 10 11 100
       scenAResult (by decide) (by decide) (by unfold WFKeys; decide)
       rfl).2.1,
   by decide⟩

/-- Initialized world with an empty reserve and no holder balances,
used for the C5 evaluations (admin = minter-burner 8, composite token
at 7). -/
def cw0 : World :=
  ⟨{ TokenState.empty with
     admin := some 8
     components := [1, 2]
     amounts := [2, 3] },
   []⟩

/-- Counterexample to C5 as stated: `check_nonnegative_amount`
(contract.rs:20-24) rejects only strictly negative amounts, so an
orchestrator `mint` or `burn` with amount exactly 0 is accepted (it
runs to completion as a no-op) instead of failing with
`InvalidAmount`. -/
theorem orchestrator_zero_amount_accepted :
    (ConstellationMinterBurner.mint 8 7 (fun a => a == 10) cw0 10 11 0 ≠
      .error Err.InvalidAmount) ∧
    (ConstellationMinterBurner.burn 8 7 (fun a => a == 10) cw0 10 0 ≠
      .error Err.InvalidAmount) :=
  ⟨fun h => Except.noConfusion h, fun h => Except.noConfusion h⟩

/-- C5 (amended): an orchestrator `mint` or `burn` whose amount is
strictly negative fails with `InvalidAmount` — the only amount check in
the call chain is the composite token's `check_nonnegative_amount`,
which rejects `amount < 0` but accepts 0; and the failing call, being a
rolled-back panic, persists no side effect. (For `mint` the pulls
precede the check, so the non-negative-reserve hypothesis keeps the
pulls of a non-positive amount from failing first.) -/
theorem orchestrator_negative_amount_invalid (mbAddr ctokenAddr : Nat)
    (auth : Nat → Bool) (w : World) (from_ to_ : Nat) (amount : Int)
    (hauth : auth from_ = true) (hneg : amount < 0)
    (hw : ∀ c, 0 ≤ compBal w c from_) :
    ConstellationMinterBurner.mint mbAddr ctokenAddr auth w from_ to_
      amount = .error .InvalidAmount ∧
    ConstellationMinterBurner.burn mbAddr ctokenAddr auth w from_ amount =
      .error .InvalidAmount := by
  constructor
  · unfold ConstellationMinterBurner.mint require_auth
    rw [if_pos hauth]
    dsimp only
    obtain ⟨w1, hp⟩ := pull_components_list_ok_of_nonpos ctokenAddr from_
      amount (le_of_lt hneg) (w.ctoken.components.zip w.ctoken.amounts) w hw
    rw [hp]
    dsimp only
    unfold ConstellationToken.mint check_nonnegative_amount
    rw [if_pos hneg]
  · unfold ConstellationMinterBurner.burn ConstellationToken.burn
      require_auth check_nonnegative_amount
    dsimp only
    rw [if_pos (show (auth from_ || (from_ == mbAddr)) = true by
      simp [hauth])]
    dsimp only
    rw [if_pos hneg]

/-- Witness for the amended C5: with amount −5, both orchestrator
entry points fail with `InvalidAmount`. -/
theorem orchestrator_negative_amount_invalid_witness :
    ((fun a => a == 10) 10 = true) ∧ ((-5 : Int) < 0) ∧
    ConstellationMinterBurner.mint 8 7 (fun a => a == 10) cw0 10 11 (-5) =
      .error Err.InvalidAmount ∧
    ConstellationMinterBurner.burn 8 7 (fun a => a == 10) cw0 10 (-5) =
      .error Err.InvalidAmount :=
  ⟨rfl, by decide,
   (orchestrator_negative_amount_invalid 8 7 (fun a => a == 10) cw0 10 11
     (-5) rfl (by decide) (fun _ => le_refl 0)).1,
   (orchestrator_negative_amount_invalid 8 7 (fun a => a == 10) cw0 10 11
     (-5) rfl (by decide) (fun _ => le_refl 0)).2⟩
